import Mathlib

/-!
Verification of the news-scraping ingestion pipeline
(`news/management/commands/scrape_news.py` and `news/models.py`).

The development shallowly embeds the pipeline:

* Python strings are Lean `String`s; `len`/slicing are modelled on the
  code-point list `String.data`, matching Python's code-point semantics.
* `hashlib.sha256(...).hexdigest()` is embedded as a full executable
  SHA-256 over the UTF-8 bytes of the input (`sha256HexOfString`).
* The Django/Wagtail storage is a pure state `MState`: the list of all
  persisted `StoredArticle` rows plus whether the `NewsListPage`
  (listing container) exists.  Python exceptions are `Except PyError`.
* Dictionary access `article_data['publication_date']` is fallible:
  the canned test records do not carry that key, so the field is an
  `Option` and missing access raises `KeyError`, exactly as in Python.
-/

/-! ## SHA-256 over natural numbers (words are `Nat` reduced mod 2^32) -/

/-- Modulus for 32-bit words. -/
def M32 : Nat := 4294967296

/-- Right rotation of a 32-bit word. -/
def rotr (n w : Nat) : Nat :=
  (w >>> n) ||| ((w <<< (32 - n)) % M32)

/-- The 64 SHA-256 round constants (FIPS 180-4). -/
def sha_K : List Nat :=
  [1116352408, 1899447441, 3049323471, 3921009573,
   961987163, 1508970993, 2453635748, 2870763221,
   3624381080, 310598401, 607225278, 1426881987,
   1925078388, 2162078206, 2614888103, 3248222580,
   3835390401, 4022224774, 264347078, 604807628,
   770255983, 1249150122, 1555081692, 1996064986,
   2554220882, 2821834349, 2952996808, 3210313671,
   3336571891, 3584528711, 113926993, 338241895,
   666307205, 773529912, 1294757372, 1396182291,
   1695183700, 1986661051, 2177026350, 2456956037,
   2730485921, 2820302411, 3259730800, 3345764771,
   3516065817, 3600352804, 4094571909, 275423344,
   430227734, 506948616, 659060556, 883997877,
   958139571, 1322822218, 1537002063, 1747873779,
   1955562222, 2024104815, 2227730452, 2361852424,
   2428436474, 2756734187, 3204031479, 3329325298]

/-- The eight 32-bit working variables of SHA-256. -/
structure Hash8 where
  a : Nat
  b : Nat
  c : Nat
  d : Nat
  e : Nat
  f : Nat
  g : Nat
  h : Nat
deriving DecidableEq

/-- SHA-256 initial hash value (FIPS 180-4). -/
def sha_H0 : Hash8 :=
  ⟨1779033703, 3144134277, 1013904242, 2773480762,
   1359893119, 2600822924, 528734635, 1541459225⟩

/-- Upper-case sigma-0 of the compression function. -/
def bigSigma0 (x : Nat) : Nat := (rotr 2 x) ^^^ (rotr 13 x) ^^^ (rotr 22 x)

/-- Upper-case sigma-1 of the compression function. -/
def bigSigma1 (x : Nat) : Nat := (rotr 6 x) ^^^ (rotr 11 x) ^^^ (rotr 25 x)

/-- Lower-case sigma-0 of the message schedule. -/
def smallSigma0 (x : Nat) : Nat := (rotr 7 x) ^^^ (rotr 18 x) ^^^ (x >>> 3)

/-- Lower-case sigma-1 of the message schedule. -/
def smallSigma1 (x : Nat) : Nat := (rotr 17 x) ^^^ (rotr 19 x) ^^^ (x >>> 10)

/-- One round of the SHA-256 compression function; `kw` is the pair of
round constant and schedule word. -/
def shaRound (st : Hash8) (kw : Nat × Nat) : Hash8 :=
  let t1 := (st.h + bigSigma1 st.e +
    ((st.e &&& st.f) ^^^ ((st.e ^^^ 0xffffffff) &&& st.g)) + kw.1 + kw.2) % M32
  let t2 := (bigSigma0 st.a +
    ((st.a &&& st.b) ^^^ (st.a &&& st.c) ^^^ (st.b &&& st.c))) % M32
  ⟨(t1 + t2) % M32, st.a, st.b, st.c, (st.d + t1) % M32, st.e, st.f, st.g⟩

/-- One message-schedule extension step.  The list holds the schedule
words most-recent-first, so positions 1, 6, 14, 15 are the words at
offsets 2, 7, 15, 16 before the word being produced. -/
def extendStep (r : List Nat) : Nat :=
  (smallSigma1 (r.getD 1 0) + r.getD 6 0 + smallSigma0 (r.getD 14 0) + r.getD 15 0) % M32

/-- Iterate the schedule extension (48 times for SHA-256). -/
def extendLoop : Nat → List Nat → List Nat
  | 0, r => r
  | n + 1, r => extendLoop n (extendStep r :: r)

/-- Group a byte list into big-endian 32-bit words. -/
def word4 : List Nat → List Nat
  | b0 :: b1 :: b2 :: b3 :: rest => (b0 * 16777216 + b1 * 65536 + b2 * 256 + b3) :: word4 rest
  | _ => []

/-- Process one 64-byte block. -/
def shaBlock (st : Hash8) (block : List Nat) : Hash8 :=
  let ws16 := word4 block
  let ws := (extendLoop 48 ws16.reverse).reverse
  let out := (sha_K.zip ws).foldl shaRound st
  ⟨(st.a + out.a) % M32, (st.b + out.b) % M32, (st.c + out.c) % M32, (st.d + out.d) % M32,
   (st.e + out.e) % M32, (st.f + out.f) % M32, (st.g + out.g) % M32, (st.h + out.h) % M32⟩

/-- Split a byte list into 64-byte blocks (fuel-driven structural recursion
so that the kernel can evaluate it; the fuel is always sufficient). -/
def toBlocksAux : Nat → List Nat → List (List Nat)
  | 0, _ => []
  | _ + 1, [] => []
  | fuel + 1, l => l.take 64 :: toBlocksAux fuel (l.drop 64)

/-- SHA-256 padding: append 0x80, zeros, and the 64-bit big-endian bit length. -/
def shaPad (msg : List Nat) : List Nat :=
  let L := msg.length
  let z := (64 + 56 - ((L + 1) % 64)) % 64
  let bits := 8 * L
  msg ++ 0x80 :: List.replicate z 0 ++
    [(bits >>> 56) % 256, (bits >>> 48) % 256, (bits >>> 40) % 256, (bits >>> 32) % 256,
     (bits >>> 24) % 256, (bits >>> 16) % 256, (bits >>> 8) % 256, bits % 256]

/-- The sixteen lowercase hexadecimal digits. -/
def hexAlphabet : List Char := "0123456789abcdef".data

/-- Lowercase hexadecimal digit of a nibble. -/
def hexDigitChar (d : Nat) : Char := hexAlphabet.getD (d % 16) '0'

/-- Eight lowercase hex characters of a 32-bit word, most significant first. -/
def wordHex (w : Nat) : List Char :=
  [hexDigitChar (w >>> 28), hexDigitChar (w >>> 24), hexDigitChar (w >>> 20), hexDigitChar (w >>> 16),
   hexDigitChar (w >>> 12), hexDigitChar (w >>> 8), hexDigitChar (w >>> 4), hexDigitChar w]

/-- The 64 hex characters of a SHA-256 state. -/
def digestChars (st : Hash8) : List Char :=
  wordHex st.a ++ wordHex st.b ++ wordHex st.c ++ wordHex st.d ++
  wordHex st.e ++ wordHex st.f ++ wordHex st.g ++ wordHex st.h

/-- SHA-256 of a byte list, as a lowercase hex string
(the embedding of `hashlib.sha256(...).hexdigest()`). -/
def sha256Bytes (msg : List Nat) : String :=
  let padded := shaPad msg
  (digestChars ((toBlocksAux (padded.length + 1) padded).foldl shaBlock sha_H0)).asString

/-- UTF-8 encoding of one code point. -/
def utf8Char (n : Nat) : List Nat :=
  if n < 0x80 then [n]
  else if n < 0x800 then [0xc0 ||| (n >>> 6), 0x80 ||| (n &&& 0x3f)]
  else if n < 0x10000 then
    [0xe0 ||| (n >>> 12), 0x80 ||| ((n >>> 6) &&& 0x3f), 0x80 ||| (n &&& 0x3f)]
  else
    [0xf0 ||| (n >>> 18), 0x80 ||| ((n >>> 12) &&& 0x3f),
     0x80 ||| ((n >>> 6) &&& 0x3f), 0x80 ||| (n &&& 0x3f)]

/-- UTF-8 encoding of a string (the embedding of Python's `str.encode()`). -/
def utf8Encode (s : String) : List Nat :=
  s.data.flatMap (fun c => utf8Char c.toNat)

/-- Hex digest of the SHA-256 of the UTF-8 bytes of a string:
the embedding of `hashlib.sha256(s.encode()).hexdigest()`. -/
def sha256HexOfString (s : String) : String := sha256Bytes (utf8Encode s)

/-! ## Python string primitives used by the scraper -/

/-- Python `len` on a string (number of code points). -/
def pyLen (s : String) : Nat := s.data.length

/-- Python slicing `s[:n]` (first `n` code points). -/
def pySlice (s : String) (n : Nat) : String := (s.data.take n).asString

/-- Python `s.startswith(p)`. -/
def pyStartsWith (s p : String) : Bool := p.data.isPrefixOf s.data

/-- Contiguous-sublist test on character lists. -/
def listContains (needle : List Char) : List Char → Bool
  | [] => needle.isEmpty
  | c :: t => needle.isPrefixOf (c :: t) || listContains needle t

/-- Python substring membership `needle in s`. -/
def pyIn (needle s : String) : Bool := listContains needle.data s.data

/-! ## Content fingerprint

`scrape_news.py` line 341-342 builds
`content_for_hash = f"{title}{summary}{source_url}"` and hashes it;
`NewsArticle.save` in `models.py` builds the same string. -/

/-- The content hash computed by the pipeline: SHA-256 hex digest of the
concatenation of title, summary and source URL, in that order, with no
separator (embedding of `scrape_news.py` lines 341-342 and
`models.py` lines 97-99). -/
def content_hash_for (title summary source_url : String) : String :=
  sha256HexOfString (title ++ summary ++ source_url)

/-- Modelled from the spec: `fingerprint(title, summary, source_url)`,
"concatenate the three fields in that exact order with no separator,
apply a cryptographic digest (256-bit, hex-encoded lowercase)". -/
def spec_fingerprint (title summary source_url : String) : String :=
  sha256HexOfString (title ++ summary ++ source_url)

/-! ## Extractor pieces (`NewsScraper`) -/

/-- Summary synthesized by the Hacker News extractor
(`scrape_news.py` lines 61-64): fixed template embedding the title,
truncated to 200 characters plus an ellipsis when longer. -/
def hn_summary (title : String) : String :=
  let summary := "Latest story from Hacker News: " ++ title
  if 200 < pyLen summary then pySlice summary 200 ++ "..." else summary

/-- Summary synthesized by the Reddit extractor
(`scrape_news.py` lines 107-114): the post's selftext when non-empty
(truncated at 200 with ellipsis), otherwise a fixed template from the
title with the same truncation rule. -/
def reddit_summary (selftext title : String) : String :=
  if selftext = "" then
    let summary := "Programming discussion: " ++ title
    if 200 < pyLen summary then pySlice summary 200 ++ "..." else summary
  else
    if 200 < pyLen selftext then pySlice selftext 200 ++ "..." else selftext

/-- Modelled from the spec: the 200-character hard truncation with a
trailing ellipsis marker, applied "exactly when exceeded". -/
def spec_truncate (s : String) : String :=
  if 200 < pyLen s then pySlice s 200 ++ "..." else s

/-- URL resolution of the Reddit extractor (`scrape_news.py` lines
102-105): `url` is replaced by the absolute permalink URL when it starts
with `/r/` or contains the substring `reddit.com`; otherwise it is kept
unchanged. -/
def resolve_reddit_url (url permalink : String) : String :=
  if pyStartsWith url "/r/" || pyIn "reddit.com" url then
    "https://reddit.com" ++ permalink
  else url

/-! ## Slug derivation (`Command._create_slug`) -/

/-- ASCII case-lowering of one character, the effect of Python's
`str.lower()` on the characters that survive the subsequent character
class filter (all of which are ASCII). -/
def asciiLower (c : Char) : Char :=
  if 65 ≤ c.toNat ∧ c.toNat ≤ 90 then Char.ofNat (c.toNat + 32) else c

/-- Whitespace characters matched by the regex class `\s`
(ASCII portion, which is all the scraped titles contain). -/
def isWsChar (c : Char) : Bool :=
  c = ' ' || c = '\t' || c = '\n' || c = '\x0d' || c = '\x0b' || c = '\x0c'

/-- Membership in the regex character class `[a-zA-Z0-9\s-]` of
`re.sub(r'[^a-zA-Z0-9\s-]', '', ...)`. -/
def inSlugClass (c : Char) : Bool :=
  (97 ≤ c.toNat && c.toNat ≤ 122) || (65 ≤ c.toNat && c.toNat ≤ 90) ||
  (48 ≤ c.toNat && c.toNat ≤ 57) || isWsChar c || c = '-'

/-- Replace each maximal run of whitespace by a single hyphen
(the effect of `re.sub(r'\s+', '-', ...)`).  The flag records whether the
previous character was whitespace (its hyphen already emitted). -/
def collapseWsAux : Bool → List Char → List Char
  | _, [] => []
  | inWs, c :: rest =>
    if isWsChar c then
      if inWs then collapseWsAux true rest else '-' :: collapseWsAux true rest
    else c :: collapseWsAux false rest

/-- Python `s.strip('-')`: drop hyphens from both ends. -/
def stripHyphens (l : List Char) : List Char :=
  ((l.dropWhile (fun c => c = '-')).reverse.dropWhile (fun c => c = '-')).reverse

/-- The slug base computed by `Command._create_slug` (lines 387-391):
lowercase, drop characters outside `[a-zA-Z0-9\s-]`, collapse whitespace
runs to single hyphens, strip leading/trailing hyphens, truncate to 50. -/
def slugify (title : String) : String :=
  ((stripHyphens (collapseWsAux false ((title.data.map asciiLower).filter inSlugClass))).take 50).asString

/-- Decimal digits of a positive number, least significant first,
fuel-driven so the kernel can evaluate it (`fuel ≥ n` suffices). -/
def decDigits : Nat → Nat → List Nat
  | 0, _ => []
  | fuel + 1, n => if n = 0 then [] else (n % 10) :: decDigits fuel (n / 10)

/-- Character of one decimal digit. -/
def digitChar (d : Nat) : Char := "0123456789".data.getD d '0'

/-- Decimal notation of a natural number, the embedding of Python's
integer formatting in `f"{base_slug}-{counter}"`. -/
def natToDec (n : Nat) : String :=
  if n = 0 then "0" else ((decDigits n n).map digitChar).reverse.asString

/-- The candidate slug tried at counter value `k`: the base itself for
`k = 0`, and `base-k` afterwards. -/
def slugCandidate (base : String) (k : Nat) : String :=
  if k = 0 then base else base ++ "-" ++ natToDec k

/-- The `while NewsArticle.objects.filter(slug=slug).exists()` loop of
`_create_slug` (lines 394-399), fuel-driven: as long as the current
candidate is taken, move to `base-counter` and increment the counter. -/
def slugLoop (taken : List String) (base : String) : Nat → String → Nat → String
  | 0, slug, _ => slug
  | fuel + 1, slug, counter =>
    if slug ∈ taken then slugLoop taken base fuel (base ++ "-" ++ natToDec counter) (counter + 1)
    else slug

/-- `Command._create_slug`: slug base from the title, then sequential
`-1`, `-2`, ... disambiguation against the set of existing slugs.
`taken.length + 1` iterations always suffice (proved below). -/
def create_slug (taken : List String) (title : String) : String :=
  let base := slugify title
  slugLoop taken base (taken.length + 1) base 1

/-! ## Data model and storage state -/

/-- The dictionary produced per article by the extractors and by
`_create_test_articles`.  All call sites populate the four string keys;
`publication_date` is optional because the canned test-mode dictionaries
omit that key (dates are abstracted to `Nat`). -/
structure ArticleData where
  title : String
  summary : String
  source_url : String
  source_name : String
  publication_date : Option Nat
deriving DecidableEq

/-- A persisted `NewsArticle` row (`models.py`); dates abstract to `Nat`. -/
structure StoredArticle where
  title : String
  summary : String
  source_url : String
  source_name : String
  publication_date : Nat
  content_hash : String
  slug : String
deriving DecidableEq

/-- The storage the pipeline reads and writes: all persisted article rows,
plus whether a `NewsListPage` (the listing container) exists. -/
structure MState where
  articles : List StoredArticle
  hasListPage : Bool
deriving DecidableEq

/-- Python exceptions reaching the pipeline's handlers. -/
inductive PyError where
  | keyError (key : String)
  | commandError (msg : String)
deriving DecidableEq

/-- The message of an exception, as interpolated into log lines
(Python renders `KeyError('k')` as `'k'`). -/
def errMsg : PyError → String
  | .keyError k => "'" ++ k ++ "'"
  | .commandError m => m

/-- Per-article outcome as observable from the command's output lines. -/
inductive LoopOutcome where
  | created
  | updated
  | skipped
  | failed
deriving DecidableEq

/-- The three counters kept by `Command.handle` (lines 213-215).
The handler keeps no counter for failures. -/
structure Counts where
  created_count : Nat
  updated_count : Nat
  skipped_count : Nat
deriving DecidableEq

/-- Result of the orchestration loop: the per-article outcomes, the error
log lines, the final counters and the final storage state. -/
structure LoopResult where
  outcomes : List LoopOutcome
  logs : List String
  counts : Counts
  state : MState
deriving DecidableEq

/-! ## The reconciler (`Command._process_article`) -/

/-- The content hash computed for an article dictionary
(`scrape_news.py` lines 341-342). -/
def processContentHash (a : ArticleData) : String :=
  content_hash_for a.title a.summary a.source_url

/-- Embedding of `Command._process_article` (lines 338-382).

* The `NewsArticle.objects.get(content_hash=...)` lookup is modelled by
  filtering the stored rows: no match enters the create branch
  (`DoesNotExist`), exactly one match enters the found branch, and more
  than one match raises (`MultipleObjectsReturned`) — the storage-level
  unique constraint on `content_hash` keeps the last case unreachable.
* In the create branch the code first requires a `NewsListPage`
  (raising `CommandError` if absent), then computes the slug, then
  builds the new row — where `article_data['publication_date']` raises
  `KeyError` when the key is missing — and persists it as the last child.
* In the found branch with `force_update` the four fields are
  overwritten on the matched row and the row is republished;
  without `force_update` the function returns `'skipped'` untouched. -/
def processArticle (st : MState) (a : ArticleData) (force_update : Bool) :
    Except PyError (String × MState) :=
  let content_hash := processContentHash a
  match st.articles.filter (fun s => s.content_hash == content_hash) with
  | [] =>
    if st.hasListPage then
      let slug := create_slug (st.articles.map (fun s => s.slug)) a.title
      match a.publication_date with
      | none => .error (.keyError "publication_date")
      | some pd =>
        .ok ("created",
          { st with articles := st.articles ++
              [{ title := a.title, summary := a.summary, source_url := a.source_url,
                 source_name := a.source_name, publication_date := pd,
                 content_hash := content_hash, slug := slug }] })
    else .error (.commandError "No news list page found. Please run the command again.")
  | [_existing] =>
    if force_update then
      match a.publication_date with
      | none => .error (.keyError "publication_date")
      | some pd =>
        .ok ("updated",
          { st with articles := st.articles.map (fun s =>
              if s.content_hash == content_hash then
                { s with title := a.title, summary := a.summary,
                         publication_date := pd, source_name := a.source_name }
              else s) })
    else .ok ("skipped", st)
  | _ => .error (.commandError "MultipleObjectsReturned")

/-! ## The orchestration loop (`Command.handle`, lines 217-242) -/

/-- The per-article loop of `Command.handle`: each article is processed
inside `try/except Exception`; a failure is logged with the article's
title and the loop continues; the three counters track the string
result exactly as in the source (`else` counts as skipped). -/
def processLoop (st : MState) (arts : List ArticleData) (force_update : Bool)
    (c : Counts) : LoopResult :=
  match arts with
  | [] => ⟨[], [], c, st⟩
  | a :: rest =>
    match processArticle st a force_update with
    | .ok (result, st') =>
      if result = "created" then
        let r := processLoop st' rest force_update
          { c with created_count := c.created_count + 1 }
        ⟨.created :: r.outcomes, r.logs, r.counts, r.state⟩
      else if result = "updated" then
        let r := processLoop st' rest force_update
          { c with updated_count := c.updated_count + 1 }
        ⟨.updated :: r.outcomes, r.logs, r.counts, r.state⟩
      else
        let r := processLoop st' rest force_update
          { c with skipped_count := c.skipped_count + 1 }
        ⟨.skipped :: r.outcomes, r.logs, r.counts, r.state⟩
    | .error e =>
      let r := processLoop st rest force_update c
      ⟨.failed :: r.outcomes,
       ("Failed to process article " ++ a.title ++ ": " ++ errMsg e) :: r.logs,
       r.counts, r.state⟩

/-- Embedding of `Command._ensure_news_list_page` (lines 309-336): the
environment flag says whether the default site exists and the page can
be created; on failure the method raises `CommandError` (fatal, it is
not called inside the per-article handler). -/
def ensure_news_list_page (envOk : Bool) (st : MState) : Except PyError MState :=
  if envOk then .ok { st with hasListPage := true }
  else .error (.commandError "Failed to create news list page")

/-- Embedding of the non-test path of `Command.handle` after extraction:
with `dry_run` nothing is processed and storage is untouched; otherwise
the listing page is ensured (fatal on failure) and the loop runs over
all extracted articles. -/
def runScrape (envOk : Bool) (st : MState) (arts : List ArticleData)
    (dry_run force_update : Bool) : Except PyError LoopResult :=
  if dry_run then .ok ⟨[], [], ⟨0, 0, 0⟩, st⟩
  else
    match ensure_news_list_page envOk st with
    | .error e => .error e
    | .ok st' => .ok (processLoop st' arts force_update ⟨0, 0, 0⟩)

/-! ## Test mode (`Command._create_test_articles`, lines 259-307) -/

/-- The fixed canned records of `_create_test_articles` (lines 261-280).
The dictionaries carry no `publication_date` key. -/
def test_articles : List ArticleData :=
  [{ title := "Test Article: Python Django Framework Updates",
     summary := "This is a test article about Django framework updates and new features for web development.",
     source_url := "https://example.com/django-updates",
     source_name := "Test Tech News",
     publication_date := none },
   { title := "Test Article: AI and Machine Learning Trends",
     summary := "A comprehensive overview of current artificial intelligence and machine learning trends in the tech industry.",
     source_url := "https://example.com/ai-trends",
     source_name := "Test AI News",
     publication_date := none },
   { title := "Test Article: Web Development Best Practices",
     summary := "Essential best practices for modern web development including security, performance, and maintainability.",
     source_url := "https://example.com/web-dev-practices",
     source_name := "Test Dev News",
     publication_date := none }]

/-- The per-article loop of `_create_test_articles` (lines 289-303):
only `created_count` is kept; any non-`'created'` result is reported as
a skip; exceptions are caught and reported and the loop continues. -/
def testLoop (st : MState) (arts : List ArticleData) (created : Nat) :
    List LoopOutcome × Nat × MState :=
  match arts with
  | [] => ([], created, st)
  | a :: rest =>
    match processArticle st a false with
    | .ok (result, st') =>
      if result = "created" then
        let r := testLoop st' rest (created + 1)
        (.created :: r.1, r.2)
      else
        let r := testLoop st' rest created
        (.skipped :: r.1, r.2)
    | .error _ =>
      let r := testLoop st rest created
      (.failed :: r.1, r.2)

/-- Embedding of `Command._create_test_articles`: with `dry_run` only a
preview is printed; otherwise the listing page is ensured (fatal on
failure) and the canned records are processed with `force_update=False`. -/
def create_test_articles (envOk : Bool) (st : MState) (dry_run : Bool) :
    Except PyError (List LoopOutcome × Nat × MState) :=
  if dry_run then .ok ([], 0, st)
  else
    match ensure_news_list_page envOk st with
    | .error e => .error e
    | .ok st' => .ok (testLoop st' test_articles 0)

/-! ## `NewsArticle.save` (`models.py`, lines 95-100) -/

/-- Embedding of `NewsArticle.save`: the content hash is generated from
`title + summary + source_url` only when the stored hash is falsy
(the empty string); otherwise the row is saved unchanged. -/
def newsArticleSave (art : StoredArticle) : StoredArticle :=
  if art.content_hash = "" then
    { art with content_hash := content_hash_for art.title art.summary art.source_url }
  else art

/-- The field overwrite of the forced-update branch of
`_process_article` (lines 351-354) followed by the save triggered by
`save_revision().publish()`. -/
def forceUpdateSave (art : StoredArticle) (a : ArticleData) (pd : Nat) : StoredArticle :=
  newsArticleSave { art with title := a.title, summary := a.summary,
                             publication_date := pd, source_name := a.source_name }

/-! ## Derived notations used by the proofs -/

/-- Value of a little-endian decimal digit list (used to prove the
decimal notation of the slug counter injective). -/
def ofDigitsLE : List Nat → Nat
  | [] => 0
  | d :: ds => d + 10 * ofDigitsLE ds

/-- The content hashes of all persisted rows, in storage order. -/
def storedHashes (st : MState) : List String :=
  st.articles.map (fun s => s.content_hash)

/-- The row persisted by the CREATE branch of `_process_article` for an
article dictionary whose `publication_date` is present. -/
def newArt (st : MState) (a : ArticleData) (pd : Nat) : StoredArticle :=
  { title := a.title, summary := a.summary, source_url := a.source_url,
    source_name := a.source_name, publication_date := pd,
    content_hash := processContentHash a,
    slug := create_slug (st.articles.map (fun s => s.slug)) a.title }

/-! ## Hex-digest lemmas -/

theorem getD_mem_or (l : List Char) (i : Nat) (d : Char) :
    l.getD i d ∈ l ∨ l.getD i d = d := by
  induction l generalizing i with
  | nil => right; simp
  | cons x xs ih =>
    cases i with
    | zero =>
      rw [List.getD_cons_zero]
      left
      exact List.mem_cons_self _ _
    | succ n =>
      rw [List.getD_cons_succ]
      rcases ih n with h | h
      · left; exact List.mem_cons_of_mem _ h
      · right; exact h

theorem hexDigitChar_mem (d : Nat) : hexDigitChar d ∈ hexAlphabet := by
  unfold hexDigitChar
  rcases getD_mem_or hexAlphabet (d % 16) '0' with h | h
  · exact h
  · rw [h]; simp [hexAlphabet]

theorem mem_wordHex {c : Char} {w : Nat} (h : c ∈ wordHex w) : c ∈ hexAlphabet := by
  simp only [wordHex, List.mem_cons, List.not_mem_nil, or_false] at h
  rcases h with h | h | h | h | h | h | h | h <;> (rw [h]; exact hexDigitChar_mem _)

theorem mem_digestChars {c : Char} {st : Hash8} (h : c ∈ digestChars st) :
    c ∈ hexAlphabet := by
  simp only [digestChars, List.mem_append] at h
  rcases h with ((((((h | h) | h) | h) | h) | h) | h) | h <;> exact mem_wordHex h

theorem digestChars_length (st : Hash8) : (digestChars st).length = 64 := rfl

theorem sha256Bytes_length (msg : List Nat) : (sha256Bytes msg).length = 64 := rfl

theorem mem_sha256Bytes {c : Char} {msg : List Nat} (h : c ∈ (sha256Bytes msg).data) :
    c ∈ hexAlphabet := mem_digestChars h

theorem sha256Bytes_ne_empty (msg : List Nat) : sha256Bytes msg ≠ "" := by
  intro h
  have h64 := sha256Bytes_length msg
  rw [h] at h64
  simp at h64

/-! ## Claim C2 -/

/-- Claim C2: for every pair of article records, the content fingerprint
computed by the reconciler equals the SHA-256 digest, hex-encoded
lowercase, of `title ++ summary ++ source_url` in that exact order with
no separator (`spec_fingerprint`); the digest is 64 lowercase hex
characters (witnessed also by the FIPS "abc" test vector pinning
`sha256HexOfString` to real SHA-256); and two records with identical
`(title, summary, source_url)` triples receive the same `content_hash`
regardless of their other fields. -/
theorem c2_fingerprint_is_sha256 (a b : ArticleData) :
    processContentHash a = spec_fingerprint a.title a.summary a.source_url ∧
    (processContentHash a).length = 64 ∧
    (∀ ch ∈ (processContentHash a).data, ch ∈ hexAlphabet) ∧
    sha256HexOfString "abc" =
      "ba7816bf8f01cfea414140de5dae2223b00361a396177a9cb410ff61f20015ad" ∧
    (a.title = b.title → a.summary = b.summary → a.source_url = b.source_url →
      processContentHash a = processContentHash b) := by
  refine ⟨rfl, sha256Bytes_length _, fun ch hc => mem_sha256Bytes hc, by decide, ?_⟩
  intro h1 h2 h3
  unfold processContentHash content_hash_for
  rw [h1, h2, h3]

/-- Witness for C2: two concrete records sharing the triple but differing
in source name and date receive the same hash. -/
theorem c2_witness :
    processContentHash ⟨"t", "s", "http://u", "Hacker News", none⟩ =
    processContentHash ⟨"t", "s", "http://u", "Reddit Programming", some 7⟩ :=
  (c2_fingerprint_is_sha256 ⟨"t", "s", "http://u", "Hacker News", none⟩
    ⟨"t", "s", "http://u", "Reddit Programming", some 7⟩).2.2.2.2 rfl rfl rfl

/-! ## Claim C3 -/

/-- Counterexample to claim C3 as stated: the fingerprint is computed on
the separator-free concatenation, so at title `"aa"`, summary `"a"`
(any url) swapping the two fields concatenates to the same string and
the hashes coincide — swapping does not always change the hash. -/
theorem c3_counterexample :
    content_hash_for "a" "aa" "u" = content_hash_for "aa" "a" "u" := by decide

/-- Claim C3 as amended: the fingerprint is deterministic — it depends
only on the concatenated string `title ++ summary ++ url`, so swapping
title and summary can change the hash only when the two concatenations
differ (it does, e.g., for `("a", "b", "c")`), and leaves it unchanged
when they coincide, as at `("aa", "a", "u")`. -/
theorem c3_fingerprint_concat_determined :
    (∀ t s u t' s' u' : String, t ++ s ++ u = t' ++ s' ++ u' →
      content_hash_for t s u = content_hash_for t' s' u') ∧
    content_hash_for "a" "b" "c" ≠ content_hash_for "b" "a" "c" := by
  constructor
  · intro t s u t' s' u' h
    unfold content_hash_for
    rw [h]
  · decide

/-- Witness for the amended C3: a concrete pair of triples with equal
concatenations receives equal hashes. -/
theorem c3_witness :
    content_hash_for "ab" "c" "d" = content_hash_for "a" "bc" "d" :=
  c3_fingerprint_concat_determined.1 "ab" "c" "d" "a" "bc" "d" (by decide)

/-! ## Claim C10 -/

/-- Claim C10: `NewsArticle.save` computes the content hash from
`title + summary + source_url` only when the stored hash is falsy, and a
non-empty hash survives every later save — including the forced-update
overwrite of title, summary, publication date and source name; moreover
a save always leaves a non-empty hash, and saving is idempotent, so once
persisted the hash stays fixed. -/
theorem c10_content_hash_immutable (art : StoredArticle) (a : ArticleData) (pd : Nat) :
    (art.content_hash ≠ "" → newsArticleSave art = art) ∧
    (art.content_hash ≠ "" → (forceUpdateSave art a pd).content_hash = art.content_hash) ∧
    (art.content_hash = "" →
      (newsArticleSave art).content_hash =
        content_hash_for art.title art.summary art.source_url) ∧
    (newsArticleSave art).content_hash ≠ "" ∧
    newsArticleSave (newsArticleSave art) = newsArticleSave art := by
  have hne : ∀ t s u : String, content_hash_for t s u ≠ "" :=
    fun t s u => sha256Bytes_ne_empty _
  refine ⟨?_, ?_, ?_, ?_, ?_⟩
  · intro h
    unfold newsArticleSave
    rw [if_neg h]
  · intro h
    unfold forceUpdateSave newsArticleSave
    rw [if_neg (by simpa using h)]
  · intro h
    unfold newsArticleSave
    rw [if_pos h]
  · unfold newsArticleSave
    by_cases h : art.content_hash = ""
    · rw [if_pos h]
      simpa using hne art.title art.summary art.source_url
    · rw [if_neg h]
      exact h
  · unfold newsArticleSave
    by_cases h : art.content_hash = ""
    · rw [if_pos h]
      rw [if_neg (by simpa using hne art.title art.summary art.source_url)]
    · rw [if_neg h, if_neg h]

/-- Witness for C10 at a concrete persisted row and a concrete forced
update changing every mutable field. -/
theorem c10_witness :
    newsArticleSave ⟨"t", "s", "u", "n", 1, "deadbeef", "t"⟩ =
      ⟨"t", "s", "u", "n", 1, "deadbeef", "t"⟩ ∧
    (forceUpdateSave ⟨"t", "s", "u", "n", 1, "deadbeef", "t"⟩
      ⟨"t2", "s2", "u2", "n2", some 9⟩ 9).content_hash = "deadbeef" :=
  ⟨(c10_content_hash_immutable ⟨"t", "s", "u", "n", 1, "deadbeef", "t"⟩
      ⟨"t2", "s2", "u2", "n2", some 9⟩ 9).1 (by decide),
   (c10_content_hash_immutable ⟨"t", "s", "u", "n", 1, "deadbeef", "t"⟩
      ⟨"t2", "s2", "u2", "n2", some 9⟩ 9).2.1 (by decide)⟩

/-! ## Claim C7 -/

/-- Counterexample to claim C7 as stated: an empty `url` field is not
replaced by the permalink (the code's test is `startswith('/r/') or
'reddit.com' in url`, both false for the empty string), and an external
URL merely containing the substring `reddit.com` is replaced even though
it is not an internal forum path. -/
theorem c7_counterexample :
    resolve_reddit_url "" "/r/programming/comments/abc" = "" ∧
    resolve_reddit_url "" "/r/programming/comments/abc" ≠
      "https://reddit.com" ++ "/r/programming/comments/abc" ∧
    resolve_reddit_url "https://blog.example/why-reddit.com-rocks"
        "/r/programming/comments/abc" =
      "https://reddit.com/r/programming/comments/abc" := by
  refine ⟨rfl, by decide, by decide⟩

/-- Claim C7 as amended: the Reddit extractor substitutes the absolute
permalink URL exactly when the post's `url` field starts with `/r/` or
contains the substring `reddit.com`; in every other case — including the
empty string — the `url` field is kept unchanged. -/
theorem c7_url_resolution (url permalink : String) :
    (pyStartsWith url "/r/" = true →
      resolve_reddit_url url permalink = "https://reddit.com" ++ permalink) ∧
    (pyIn "reddit.com" url = true →
      resolve_reddit_url url permalink = "https://reddit.com" ++ permalink) ∧
    (pyStartsWith url "/r/" = false → pyIn "reddit.com" url = false →
      resolve_reddit_url url permalink = url) ∧
    resolve_reddit_url "" permalink = "" := by
  refine ⟨?_, ?_, ?_, ?_⟩
  · intro h
    unfold resolve_reddit_url
    rw [h]
    rfl
  · intro h
    unfold resolve_reddit_url
    rw [h]
    simp
  · intro h1 h2
    unfold resolve_reddit_url
    rw [h1, h2]
    rfl
  · unfold resolve_reddit_url
    rw [show pyStartsWith "" "/r/" = false from rfl,
        show pyIn "reddit.com" "" = false from rfl]
    rfl

/-- Witness for the amended C7: an internal path gets the permalink, an
ordinary external URL passes through unchanged. -/
theorem c7_witness :
    resolve_reddit_url "/r/python/comments/1" "/r/python/comments/1" =
      "https://reddit.com" ++ "/r/python/comments/1" ∧
    resolve_reddit_url "https://example.com/post" "/r/x" = "https://example.com/post" :=
  ⟨(c7_url_resolution "/r/python/comments/1" "/r/python/comments/1").1 (by decide),
   (c7_url_resolution "https://example.com/post" "/r/x").2.2.1 (by decide) (by decide)⟩

/-! ## Claim C8 -/

/-- Claim C8: both extractors produce their summary by the same
200-character rule — the untruncated base (the fixed Hacker News
template embedding the title; the post's selftext when non-empty, else
the fixed Reddit template) is hard-truncated to its first 200 characters
with a trailing `"..."` exactly when it exceeds 200 characters, and kept
unchanged otherwise. -/
theorem c8_summary_truncation (t selftext : String) :
    hn_summary t = spec_truncate ("Latest story from Hacker News: " ++ t) ∧
    (selftext = "" →
      reddit_summary selftext t = spec_truncate ("Programming discussion: " ++ t)) ∧
    (selftext ≠ "" → reddit_summary selftext t = spec_truncate selftext) ∧
    (∀ s : String, pyLen s ≤ 200 → spec_truncate s = s) ∧
    (∀ s : String, 200 < pyLen s →
      spec_truncate s = pySlice s 200 ++ "..." ∧ pyLen (spec_truncate s) = 203) := by
  refine ⟨rfl, ?_, ?_, ?_, ?_⟩
  · intro h
    unfold reddit_summary spec_truncate
    rw [if_pos h]
  · intro h
    unfold reddit_summary spec_truncate
    rw [if_neg h]
  · intro s h
    unfold spec_truncate
    rw [if_neg (by omega)]
  · intro s h
    unfold spec_truncate
    rw [if_pos h]
    refine ⟨rfl, ?_⟩
    show ((pySlice s 200 ++ "...").data).length = 203
    rw [String.data_append]
    rw [List.length_append]
    show ((s.data.take 200).asString.data).length + 3 = 203
    rw [show ((s.data.take 200).asString.data) = s.data.take 200 from rfl, List.length_take]
    unfold pyLen at h
    omega

/-- Witness for C8 at concrete inputs: a short template stays unchanged,
a short selftext passes through, an empty selftext falls back to the
Reddit template. -/
theorem c8_witness :
    hn_summary "Lean" = "Latest story from Hacker News: Lean" ∧
    reddit_summary "short text" "Lean" = "short text" ∧
    reddit_summary "" "Lean" = "Programming discussion: Lean" :=
  ⟨((c8_summary_truncation "Lean" "short text").1).trans
      ((c8_summary_truncation "Lean" "short text").2.2.2.1 _ (by decide)),
   ((c8_summary_truncation "Lean" "short text").2.2.1 (by decide)).trans
      ((c8_summary_truncation "Lean" "short text").2.2.2.1 _ (by decide)),
   ((c8_summary_truncation "Lean" "").2.1 rfl).trans
      ((c8_summary_truncation "Lean" "").2.2.2.1 _ (by decide))⟩

/-! ## Decimal-notation lemmas for the slug counter -/

theorem decDigits_zero (f : Nat) : decDigits f 0 = [] := by
  cases f <;> rfl

theorem decDigits_val : ∀ f n : Nat, n ≤ f → ofDigitsLE (decDigits f n) = n := by
  intro f
  induction f with
  | zero =>
    intro n hn
    have h0 : n = 0 := by omega
    subst h0
    rfl
  | succ f ih =>
    intro n hn
    by_cases h0 : n = 0
    · subst h0
      rfl
    · have hstep : decDigits (f + 1) n = (n % 10) :: decDigits f (n / 10) := by
        simp [decDigits, h0]
      rw [hstep, ofDigitsLE, ih (n / 10) (by omega)]
      omega

theorem decDigits_lt10 : ∀ f n d : Nat, d ∈ decDigits f n → d < 10 := by
  intro f
  induction f with
  | zero =>
    intro n d h
    simp [decDigits] at h
  | succ f ih =>
    intro n d h
    by_cases h0 : n = 0
    · subst h0
      simp [decDigits] at h
    · simp only [decDigits, h0, if_false, List.mem_cons] at h
      rcases h with h | h
      · omega
      · exact ih _ _ h

theorem digitChar_inj10 (a b : Nat) (ha : a < 10) (hb : b < 10) :
    digitChar a = digitChar b → a = b := by
  interval_cases a <;> interval_cases b <;> decide

theorem data_asString (l : List Char) : l.asString.data = l := rfl

theorem stringDataInj {s t : String} (h : s.data = t.data) : s = t := by
  cases s
  cases t
  exact congrArg String.mk h

theorem mapDigitChar_inj : ∀ as bs : List Nat, (∀ d ∈ as, d < 10) → (∀ d ∈ bs, d < 10) →
    as.map digitChar = bs.map digitChar → as = bs := by
  intro as
  induction as with
  | nil =>
    intro bs _ _ h
    cases bs with
    | nil => rfl
    | cons b bt => simp at h
  | cons a t ih =>
    intro bs ha hb h
    cases bs with
    | nil => simp at h
    | cons b bt =>
      simp only [List.map_cons, List.cons.injEq] at h
      have hab : a = b :=
        digitChar_inj10 a b (ha a (by simp)) (hb b (by simp)) h.1
      rw [hab, ih bt (fun d hd => ha d (by simp [hd])) (fun d hd => hb d (by simp [hd])) h.2]

theorem natToDec_data (n : Nat) (h : n ≠ 0) :
    (natToDec n).data = ((decDigits n n).map digitChar).reverse := by
  simp [natToDec, h, data_asString]

theorem natToDec_inj {m n : Nat} (h : natToDec m = natToDec n) : m = n := by
  have hd := congrArg String.data h
  by_cases hm : m = 0 <;> by_cases hn : n = 0
  · omega
  · exfalso
    subst hm
    rw [natToDec_data n hn] at hd
    have hd' : ((decDigits n n).map digitChar).reverse = ['0'] := hd.symm
    have hsing : (decDigits n n).map digitChar = ['0'] := by
      have := congrArg List.reverse hd'
      simpa using this
    obtain ⟨d, hds, hdc⟩ : ∃ d, decDigits n n = [d] ∧ digitChar d = '0' := by
      cases hds : decDigits n n with
      | nil => rw [hds] at hsing; simp at hsing
      | cons d ds =>
        rw [hds] at hsing
        simp only [List.map_cons, List.cons.injEq] at hsing
        cases ds with
        | nil => exact ⟨d, rfl, hsing.1⟩
        | cons e es => simp at hsing
    have hd10 : d < 10 := decDigits_lt10 n n d (by simp [hds])
    have hd0 : d = 0 := by
      have : digitChar d = digitChar 0 := hdc
      exact digitChar_inj10 d 0 hd10 (by omega) this
    have hval := decDigits_val n n (le_refl n)
    rw [hds, hd0] at hval
    simp [ofDigitsLE] at hval
    omega
  · exfalso
    subst hn
    rw [natToDec_data m hm] at hd
    have hsing : (decDigits m m).map digitChar = ['0'] := by
      have := congrArg List.reverse hd
      simpa using this
    obtain ⟨d, hds, hdc⟩ : ∃ d, decDigits m m = [d] ∧ digitChar d = '0' := by
      cases hds : decDigits m m with
      | nil => rw [hds] at hsing; simp at hsing
      | cons d ds =>
        rw [hds] at hsing
        simp only [List.map_cons, List.cons.injEq] at hsing
        cases ds with
        | nil => exact ⟨d, rfl, hsing.1⟩
        | cons e es => simp at hsing
    have hd10 : d < 10 := decDigits_lt10 m m d (by simp [hds])
    have hd0 : d = 0 := by
      have : digitChar d = digitChar 0 := hdc
      exact digitChar_inj10 d 0 hd10 (by omega) this
    have hval := decDigits_val m m (le_refl m)
    rw [hds, hd0] at hval
    simp [ofDigitsLE] at hval
    omega
  · rw [natToDec_data m hm, natToDec_data n hn] at hd
    have hmap : (decDigits m m).map digitChar = (decDigits n n).map digitChar := by
      have := congrArg List.reverse hd
      simpa using this
    have hds : decDigits m m = decDigits n n :=
      mapDigitChar_inj _ _ (fun d hdm => decDigits_lt10 m m d hdm)
        (fun d hdn => decDigits_lt10 n n d hdn) hmap
    have hm' := decDigits_val m m (le_refl m)
    have hn' := decDigits_val n n (le_refl n)
    rw [hds] at hm'
    omega

/-! ## Slug-candidate lemmas -/

theorem slugCandidate_zero (base : String) : slugCandidate base 0 = base := rfl

theorem slugCandidate_succ (base : String) (k : Nat) :
    slugCandidate base (k + 1) = base ++ "-" ++ natToDec (k + 1) := by
  unfold slugCandidate
  rw [if_neg (by omega)]

theorem natToDec_succ_length (k : Nat) : 0 < (natToDec (k + 1)).data.length := by
  rw [natToDec_data (k + 1) (by omega)]
  have hstep : decDigits (k + 1) (k + 1) = ((k + 1) % 10) :: decDigits k ((k + 1) / 10) := by
    simp [decDigits]
  rw [hstep]
  simp

theorem slugCandidate_inj (base : String) : Function.Injective (slugCandidate base) := by
  intro j k h
  rcases j with _ | j <;> rcases k with _ | k
  · rfl
  · exfalso
    rw [slugCandidate_zero, slugCandidate_succ] at h
    have hd := congrArg String.data h
    rw [String.data_append, String.data_append] at hd
    have hl := congrArg List.length hd
    rw [List.length_append, List.length_append] at hl
    have h1 : ("-" : String).data.length = 1 := rfl
    omega
  · exfalso
    rw [slugCandidate_succ, slugCandidate_zero] at h
    have hd := congrArg String.data h
    rw [String.data_append, String.data_append] at hd
    have hl := congrArg List.length hd
    rw [List.length_append, List.length_append] at hl
    have h1 : ("-" : String).data.length = 1 := rfl
    omega
  · rw [slugCandidate_succ, slugCandidate_succ] at h
    have hd := congrArg String.data h
    rw [String.data_append, String.data_append] at hd
    have htail : (natToDec (j + 1)).data = (natToDec (k + 1)).data :=
      List.append_cancel_left hd
    have := natToDec_inj (stringDataInj htail)
    omega

/-! ## Termination and first-availability of the `_create_slug` loop -/

theorem createSlug_exists_free (taken : List String) (base : String) :
    base ∉ taken ∨
    ∃ j, 1 ≤ j ∧ j < 1 + (taken.length + 1) ∧ (base ++ "-" ++ natToDec j) ∉ taken := by
  by_contra hcon
  push_neg at hcon
  obtain ⟨hbase, hall⟩ := hcon
  have hsub : (List.range (taken.length + 2)).map (slugCandidate base) ⊆ taken := by
    intro x hx
    simp only [List.mem_map, List.mem_range] at hx
    obtain ⟨j, hj, rfl⟩ := hx
    rcases j with _ | j
    · rw [slugCandidate_zero]
      exact hbase
    · rw [slugCandidate_succ]
      exact hall (j + 1) (by omega) (by omega)
  have hnd : ((List.range (taken.length + 2)).map (slugCandidate base)).Nodup :=
    (List.nodup_range _).map (slugCandidate_inj base)
  have hle := (hnd.subperm hsub).length_le
  rw [List.length_map, List.length_range] at hle
  omega

theorem slugLoop_free (taken : List String) (base : String) :
    ∀ (f c : Nat) (slug : String),
      (slug ∉ taken ∨ ∃ j, c ≤ j ∧ j < c + f ∧ (base ++ "-" ++ natToDec j) ∉ taken) →
      slugLoop taken base f slug c ∉ taken := by
  intro f
  induction f with
  | zero =>
    intro c slug h
    rcases h with h | ⟨j, h1, h2, _⟩
    · exact h
    · omega
  | succ f ih =>
    intro c slug h
    by_cases hs : slug ∈ taken
    · have hstep : slugLoop taken base (f + 1) slug c =
          slugLoop taken base f (base ++ "-" ++ natToDec c) (c + 1) := by
        simp only [slugLoop]
        rw [if_pos hs]
      rw [hstep]
      rcases h with h | ⟨j, h1, h2, h3⟩
      · exact absurd hs h
      · apply ih
        by_cases hj : j = c
        · left
          rw [hj] at h3
          exact h3
        · right
          exact ⟨j, by omega, by omega, h3⟩
    · have hstep : slugLoop taken base (f + 1) slug c = slug := by
        simp only [slugLoop]
        rw [if_neg hs]
      rw [hstep]
      exact hs

theorem slugLoop_first (taken : List String) (base : String) :
    ∀ (f c : Nat) (slug : String),
      slugLoop taken base f slug c = slug ∨
      (slug ∈ taken ∧ ∃ j, c ≤ j ∧ j < c + f ∧
        slugLoop taken base f slug c = base ++ "-" ++ natToDec j ∧
        ∀ i, c ≤ i → i < j → (base ++ "-" ++ natToDec i) ∈ taken) := by
  intro f
  induction f with
  | zero =>
    intro c slug
    left
    rfl
  | succ f ih =>
    intro c slug
    by_cases hs : slug ∈ taken
    · have hstep : slugLoop taken base (f + 1) slug c =
          slugLoop taken base f (base ++ "-" ++ natToDec c) (c + 1) := by
        simp only [slugLoop]
        rw [if_pos hs]
      rcases ih (c + 1) (base ++ "-" ++ natToDec c) with h | ⟨hc, j, h1, h2, h3, h4⟩
      · right
        refine ⟨hs, c, le_refl c, by omega, by rw [hstep]; exact h, ?_⟩
        intro i hi1 hi2
        omega
      · right
        refine ⟨hs, j, by omega, by omega, by rw [hstep]; exact h3, ?_⟩
        intro i hi1 hi2
        by_cases hic : i = c
        · rw [hic]
          exact hc
        · exact h4 i (by omega) hi2
    · left
      simp only [slugLoop]
      rw [if_neg hs]

theorem create_slug_not_mem (taken : List String) (title : String) :
    create_slug taken title ∉ taken := by
  unfold create_slug
  apply slugLoop_free
  rcases createSlug_exists_free taken (slugify title) with h | ⟨j, h1, h2, h3⟩
  · left
    exact h
  · right
    exact ⟨j, h1, h2, h3⟩

theorem create_slug_base (taken : List String) (title : String)
    (h : slugify title ∉ taken) : create_slug taken title = slugify title := by
  unfold create_slug
  simp only [slugLoop]
  rw [if_neg h]

theorem create_slug_first (taken : List String) (title : String) :
    ∃ k, create_slug taken title = slugCandidate (slugify title) k ∧
      ∀ j, j < k → slugCandidate (slugify title) j ∈ taken := by
  rcases slugLoop_first taken (slugify title) (taken.length + 1) 1 (slugify title)
    with h | ⟨hbase, j, h1, h2, h3, h4⟩
  · refine ⟨0, ?_, ?_⟩
    · rw [slugCandidate_zero]
      exact h
    · intro i hi
      exact absurd hi (Nat.not_lt_zero i)
  · refine ⟨j, ?_, ?_⟩
    · have hj : j ≠ 0 := by omega
      rcases j with _ | j'
      · omega
      · rw [slugCandidate_succ]
        exact h3
    · intro i hi
      rcases i with _ | i'
      · rw [slugCandidate_zero]
        exact hbase
      · rw [slugCandidate_succ]
        exact h4 (i' + 1) (by omega) hi

/-! ## Character-level properties of `slugify` -/

theorem charToNat_ofNat (n : Nat) (h : n.isValidChar) : (Char.ofNat n).toNat = n := by
  unfold Char.ofNat
  rw [dif_pos h]
  rfl

theorem asciiLower_not_upper (c : Char) :
    ¬(65 ≤ (asciiLower c).toNat ∧ (asciiLower c).toNat ≤ 90) := by
  unfold asciiLower
  by_cases h : 65 ≤ c.toNat ∧ c.toNat ≤ 90
  · rw [if_pos h]
    have hv : (c.toNat + 32).isValidChar := Or.inl (by omega)
    rw [charToNat_ofNat _ hv]
    omega
  · rw [if_neg h]
    exact h

theorem mem_collapseWsAux :
    ∀ (l : List Char) (b : Bool) (c : Char), c ∈ collapseWsAux b l →
      c = '-' ∨ (c ∈ l ∧ isWsChar c = false) := by
  intro l
  induction l with
  | nil =>
    intro b c h
    simp [collapseWsAux] at h
  | cons x t ih =>
    intro b c h
    by_cases hx : isWsChar x = true
    · cases b with
      | true =>
        rw [show collapseWsAux true (x :: t) = collapseWsAux true t from by
          simp [collapseWsAux, hx]] at h
        rcases ih true c h with hc | ⟨hc1, hc2⟩
        · left; exact hc
        · right; exact ⟨List.mem_cons_of_mem _ hc1, hc2⟩
      | false =>
        rw [show collapseWsAux false (x :: t) = '-' :: collapseWsAux true t from by
          simp [collapseWsAux, hx]] at h
        rcases List.mem_cons.mp h with hc | hc
        · left; exact hc
        · rcases ih true c hc with hd | ⟨hd1, hd2⟩
          · left; exact hd
          · right; exact ⟨List.mem_cons_of_mem _ hd1, hd2⟩
    · rw [show collapseWsAux b (x :: t) = x :: collapseWsAux false t from by
        simp [collapseWsAux, hx]] at h
      rcases List.mem_cons.mp h with hc | hc
      · right
        refine ⟨by rw [hc]; exact List.mem_cons_self _ _, ?_⟩
        rw [hc]
        simpa using hx
      · rcases ih false c hc with hd | ⟨hd1, hd2⟩
        · left; exact hd
        · right; exact ⟨List.mem_cons_of_mem _ hd1, hd2⟩

theorem mem_stripHyphens {c : Char} {l : List Char} (h : c ∈ stripHyphens l) : c ∈ l := by
  unfold stripHyphens at h
  rw [List.mem_reverse] at h
  have h1 := (List.dropWhile_sublist _).subset h
  rw [List.mem_reverse] at h1
  exact (List.dropWhile_sublist _).subset h1

theorem slugify_length (title : String) : pyLen (slugify title) ≤ 50 := by
  unfold pyLen slugify
  rw [data_asString, List.length_take]
  exact min_le_left _ _

theorem slugify_chars (title : String) :
    ∀ ch ∈ (slugify title).data,
      (97 ≤ ch.toNat ∧ ch.toNat ≤ 122) ∨ (48 ≤ ch.toNat ∧ ch.toNat ≤ 57) ∨ ch = '-' := by
  intro ch h
  unfold slugify at h
  rw [data_asString] at h
  have h1 := List.take_subset _ _ h
  have h2 := mem_stripHyphens h1
  rcases mem_collapseWsAux _ _ _ h2 with hc | ⟨hc, hws⟩
  · right; right; exact hc
  · obtain ⟨hmem, hclass⟩ := List.mem_filter.mp hc
    obtain ⟨c0, _hc0, hco⟩ := List.mem_map.mp hmem
    have hup := asciiLower_not_upper c0
    rw [← hco] at hws hclass ⊢
    unfold inSlugClass at hclass
    rw [hws] at hclass
    simp only [Bool.or_eq_true, Bool.and_eq_true, decide_eq_true_eq, Bool.false_or,
      Bool.or_false] at hclass
    rcases hclass with ((h | h) | h) | h
    · left; exact h
    · exact absurd h hup
    · right; left; exact h
    · right; right; exact h

/-! ## Claim C9 -/

/-- Claim C9: the derived slug base is at most 50 characters and contains
only lowercase letters, digits and hyphens (the title is lowercased,
characters outside the class are stripped, whitespace runs collapse to
single hyphens, boundary hyphens are stripped, then the result is
truncated to 50); disambiguation tries the base and then `-1`, `-2`, ...
sequentially and returns the first candidate not already taken — in
particular the returned slug is never an existing one, an available base
is used as-is, and a second article whose slug is created after the
first one is stored can never receive the first one's slug. -/
theorem c9_slug_derivation (title : String) (taken : List String) :
    pyLen (slugify title) ≤ 50 ∧
    (∀ ch ∈ (slugify title).data,
      (97 ≤ ch.toNat ∧ ch.toNat ≤ 122) ∨ (48 ≤ ch.toNat ∧ ch.toNat ≤ 57) ∨ ch = '-') ∧
    create_slug taken title ∉ taken ∧
    (slugify title ∉ taken → create_slug taken title = slugify title) ∧
    (∃ k, create_slug taken title = slugCandidate (slugify title) k ∧
      ∀ j, j < k → slugCandidate (slugify title) j ∈ taken) ∧
    (∀ title2 : String,
      create_slug (taken ++ [create_slug taken title]) title2 ≠ create_slug taken title) := by
  refine ⟨slugify_length title, slugify_chars title, create_slug_not_mem taken title,
    create_slug_base taken title, create_slug_first taken title, ?_⟩
  intro title2 h
  have hninst := create_slug_not_mem (taken ++ [create_slug taken title]) title2
  rw [h] at hninst
  exact hninst (by simp)

/-- Witness for C9: the spec's own example title slugifies to the
expected 50-character-bounded base, and with the base already taken the
`-1` suffix is chosen. -/
theorem c9_witness :
    create_slug ["foo"] "Test Article: Python Django Framework Updates!!" =
      "test-article-python-django-framework-updates" :=
  ((c9_slug_derivation "Test Article: Python Django Framework Updates!!" ["foo"]).2.2.2.1
    (by decide)).trans (by decide)

/-! ## Claim C6 -/

/-- Claim C6 names a code bug: with `test_mode=true` and `dry_run=false`
against empty storage, the run does bypass fetch/extract and does
complete without aborting — but every one of the 3 canned records lacks
the `publication_date` key, so building the new row raises
`KeyError('publication_date')` inside the per-article handler: all 3
records fail, zero are created and storage stays empty, contradicting
the claimed "3 processed records (created on first run)". -/
theorem c6_test_mode_key_error :
    create_test_articles true ⟨[], false⟩ false =
      .ok ([.failed, .failed, .failed], 0, ⟨[], true⟩) := rfl

/-! ## Claim C5 -/

/-- Counterexample to claim C5 as stated: with the listing container
absent, the `CommandError` raised in the CREATE branch of
`_process_article` is caught by the orchestration loop's blanket
`except Exception` handler like any per-article failure — the run does
not abort and the second article is still processed (two failed
outcomes, two log lines, loop returns normally). -/
theorem c5_counterexample :
    processLoop ⟨[], false⟩
      [⟨"A", "s", "u", "n", some 1⟩, ⟨"B", "s2", "u2", "n2", some 2⟩] false ⟨0, 0, 0⟩ =
      ⟨[.failed, .failed],
       ["Failed to process article A: No news list page found. Please run the command again.",
        "Failed to process article B: No news list page found. Please run the command again."],
       ⟨0, 0, 0⟩, ⟨[], false⟩⟩ := rfl

/-- Claim C5 as amended: when the CREATE state is entered with the
ListingContainer absent, `_process_article` raises a `CommandError`, but
the per-article handler of the orchestration loop catches it like every
other failure — the article is logged as failed and processing continues
with the remaining articles.  The run is never aborted once the loop is
reached; the only fatal path is the ensure-container step before the
loop, whose `CommandError` propagates. -/
theorem c5_missing_container_not_fatal (st : MState) (a : ArticleData)
    (rest arts : List ArticleData) (f fu : Bool) (c : Counts) (dr : Bool) :
    (st.hasListPage = false →
      st.articles.filter (fun s => s.content_hash == processContentHash a) = [] →
      processArticle st a f =
        .error (.commandError "No news list page found. Please run the command again.") ∧
      processLoop st (a :: rest) f c =
        ⟨.failed :: (processLoop st rest f c).outcomes,
         ("Failed to process article " ++ a.title ++ ": " ++
           "No news list page found. Please run the command again.") ::
           (processLoop st rest f c).logs,
         (processLoop st rest f c).counts, (processLoop st rest f c).state⟩) ∧
    (runScrape true st arts dr fu).isOk = true ∧
    runScrape false st arts false fu = .error (.commandError "Failed to create news list page") := by
  refine ⟨?_, ?_, ?_⟩
  · intro h1 h2
    have hp : processArticle st a f =
        .error (.commandError "No news list page found. Please run the command again.") := by
      simp [processArticle, h2, h1]
    refine ⟨hp, ?_⟩
    simp only [processLoop, hp, errMsg]
  · cases dr with
    | true => rfl
    | false =>
      unfold runScrape ensure_news_list_page
      simp [Except.isOk, Except.toBool]
  · rfl

/-- Witness for the amended C5 at a concrete state and article. -/
theorem c5_witness :
    processArticle ⟨[], false⟩ ⟨"T", "s", "u", "n", some 1⟩ false =
      .error (.commandError "No news list page found. Please run the command again.") :=
  ((c5_missing_container_not_fatal ⟨[], false⟩ ⟨"T", "s", "u", "n", some 1⟩ [] [] false false
      ⟨0, 0, 0⟩ false).1 rfl rfl).1

/-! ## Claim C4 -/

/-- Counterexample to claim C4 as stated: `Command.handle` keeps no
`failed` counter — a run in which the only article fails ends with the
very same all-zero `created/updated/skipped` tally as a run over no
articles at all, so the final tally does not account for the failure
(there is no fourth outcome count). -/
theorem c4_counterexample :
    (processLoop ⟨[], false⟩ [⟨"Boom", "s", "u", "n", some 1⟩] false ⟨0, 0, 0⟩).outcomes =
      [.failed] ∧
    (processLoop ⟨[], false⟩ [⟨"Boom", "s", "u", "n", some 1⟩] false ⟨0, 0, 0⟩).counts =
      ⟨0, 0, 0⟩ ∧
    (processLoop ⟨[], false⟩ [] false ⟨0, 0, 0⟩).counts = ⟨0, 0, 0⟩ :=
  ⟨rfl, rfl, rfl⟩

/-- Claim C4 as amended: any exception while processing one article is
caught at the orchestration loop, logged with the article's title, and
does not stop processing of subsequent articles, whose processing
continues from an unchanged state; the failed article is visible as a
per-article `failed` outcome, but it is not counted — the run's final
tally consists of the three counters `created/updated/skipped` only,
each accurately counting its outcome. -/
theorem c4_failures_caught_logged_not_tallied :
    (∀ (st : MState) (a : ArticleData) (rest : List ArticleData) (f : Bool)
      (c : Counts) (e : PyError), processArticle st a f = .error e →
      processLoop st (a :: rest) f c =
        ⟨.failed :: (processLoop st rest f c).outcomes,
         ("Failed to process article " ++ a.title ++ ": " ++ errMsg e) ::
           (processLoop st rest f c).logs,
         (processLoop st rest f c).counts,
         (processLoop st rest f c).state⟩) ∧
    (∀ (st : MState) (arts : List ArticleData) (f : Bool) (c : Counts),
      (processLoop st arts f c).outcomes.length = arts.length ∧
      (processLoop st arts f c).counts.created_count =
        c.created_count + (processLoop st arts f c).outcomes.count .created ∧
      (processLoop st arts f c).counts.updated_count =
        c.updated_count + (processLoop st arts f c).outcomes.count .updated ∧
      (processLoop st arts f c).counts.skipped_count =
        c.skipped_count + (processLoop st arts f c).outcomes.count .skipped) := by
  constructor
  · intro st a rest f c e he
    simp only [processLoop, he]
  · intro st arts f
    induction arts generalizing st with
    | nil =>
      intro c
      simp [processLoop, List.count_nil]
    | cons a rest ih =>
      intro c
      cases hpa : processArticle st a f with
      | ok pair =>
        obtain ⟨result, st'⟩ := pair
        by_cases hres : result = "created"
        · subst hres
          simp only [processLoop, hpa]
          rw [if_pos trivial]
          obtain ⟨ihl, ihc, ihu, ihs⟩ := ih st' { c with created_count := c.created_count + 1 }
          refine ⟨by simp [ihl], ?_, ?_, ?_⟩ <;>
            (simp only [List.count_cons, ihc, ihu, ihs]; try simp; try omega)
        · by_cases hres2 : result = "updated"
          · subst hres2
            simp only [processLoop, hpa]
            rw [if_neg hres, if_pos trivial]
            obtain ⟨ihl, ihc, ihu, ihs⟩ := ih st' { c with updated_count := c.updated_count + 1 }
            refine ⟨by simp [ihl], ?_, ?_, ?_⟩ <;>
              (simp only [List.count_cons, ihc, ihu, ihs]; try simp; try omega)
          · simp only [processLoop, hpa]
            rw [if_neg hres, if_neg hres2]
            obtain ⟨ihl, ihc, ihu, ihs⟩ := ih st' { c with skipped_count := c.skipped_count + 1 }
            refine ⟨by simp [ihl], ?_, ?_, ?_⟩ <;>
              (simp only [List.count_cons, ihc, ihu, ihs]; try simp; try omega)
      | error e =>
        simp only [processLoop, hpa]
        obtain ⟨ihl, ihc, ihu, ihs⟩ := ih st c
        refine ⟨by simp [ihl], ?_, ?_, ?_⟩ <;>
          (simp only [List.count_cons, ihc, ihu, ihs]; try simp; try omega)

/-- Witness for the amended C4: a concrete failing article is logged
with its title, yields a failed outcome, and leaves the loop over the
remaining (empty) list untouched. -/
theorem c4_witness :
    processLoop ⟨[], false⟩ [⟨"Crash", "s", "u", "n", some 1⟩] false ⟨0, 0, 0⟩ =
      ⟨[.failed],
       ["Failed to process article Crash: No news list page found. Please run the command again."],
       ⟨0, 0, 0⟩, ⟨[], false⟩⟩ :=
  c4_failures_caught_logged_not_tallied.1 ⟨[], false⟩ ⟨"Crash", "s", "u", "n", some 1⟩ [] false
    ⟨0, 0, 0⟩ (.commandError "No news list page found. Please run the command again.") rfl

/-! ## Reconciler lemmas for claim C1 -/

theorem filter_hash_singleton : ∀ (l : List StoredArticle) (s0 : StoredArticle),
    (l.map (fun s => s.content_hash)).Nodup → s0 ∈ l →
    l.filter (fun s => s.content_hash == s0.content_hash) = [s0] := by
  intro l
  induction l with
  | nil =>
    intro s0 _ h
    simp at h
  | cons a t ih =>
    intro s0 hnd hmem
    rw [List.map_cons, List.nodup_cons] at hnd
    obtain ⟨hha, hndt⟩ := hnd
    rcases List.mem_cons.mp hmem with heq | hmt
    · subst heq
      rw [List.filter_cons, if_pos (by simp)]
      have ht : t.filter (fun s => s.content_hash == s0.content_hash) = [] := by
        rw [List.filter_eq_nil_iff]
        intro s hs hbeq
        exact hha (List.mem_map.mpr ⟨s, hs, by simpa using hbeq⟩)
      rw [ht]
    · have hne : (a.content_hash == s0.content_hash) = false := by
        rw [beq_eq_false_iff_ne]
        intro heq2
        exact hha (List.mem_map.mpr ⟨s0, hmt, heq2.symm⟩)
      rw [List.filter_cons, if_neg (by rw [hne]; exact Bool.false_ne_true)]
      exact ih s0 hndt hmt

theorem processArticle_skipped (st : MState) (a : ArticleData)
    (hnd : (storedHashes st).Nodup)
    (hex : ∃ s ∈ st.articles, s.content_hash = processContentHash a) :
    processArticle st a false = .ok ("skipped", st) := by
  obtain ⟨s0, hs0, hhash⟩ := hex
  have hfil : st.articles.filter (fun s => s.content_hash == processContentHash a) = [s0] := by
    have hf := filter_hash_singleton st.articles s0 hnd hs0
    rw [hhash] at hf
    exact hf
  simp [processArticle, hfil]

theorem processArticle_created (st : MState) (a : ArticleData) (pd : Nat)
    (hlp : st.hasListPage = true)
    (hnm : processContentHash a ∉ storedHashes st)
    (hpd : a.publication_date = some pd) :
    processArticle st a false =
      .ok ("created", ⟨st.articles ++ [newArt st a pd], st.hasListPage⟩) := by
  have hfil : st.articles.filter (fun s => s.content_hash == processContentHash a) = [] := by
    rw [List.filter_eq_nil_iff]
    intro s hs hbeq
    exact hnm (List.mem_map.mpr ⟨s, hs, by simpa using hbeq⟩)
  simp [processArticle, hfil, hlp, hpd, newArt]

theorem storedHashes_append (l1 l2 : List StoredArticle) (b : Bool) :
    storedHashes ⟨l1 ++ l2, b⟩ = storedHashes ⟨l1, b⟩ ++ storedHashes ⟨l2, b⟩ := by
  simp [storedHashes]

theorem processLoop_all_created :
    ∀ (arts : List ArticleData) (st : MState) (c : Counts),
      st.hasListPage = true →
      (arts.map processContentHash).Nodup →
      (∀ a ∈ arts, processContentHash a ∉ storedHashes st) →
      (∀ a ∈ arts, a.publication_date.isSome = true) →
      (processLoop st arts false c).outcomes = List.replicate arts.length .created ∧
      (processLoop st arts false c).logs = [] ∧
      (processLoop st arts false c).counts =
        ⟨c.created_count + arts.length, c.updated_count, c.skipped_count⟩ ∧
      storedHashes (processLoop st arts false c).state =
        storedHashes st ++ arts.map processContentHash ∧
      (processLoop st arts false c).state.hasListPage = true := by
  intro arts
  induction arts with
  | nil =>
    intro st c h1 _ _ _
    exact ⟨rfl, rfl, by simp [processLoop], by simp [processLoop], h1⟩
  | cons a rest ih =>
    intro st c hlp hnd hnot hsome
    obtain ⟨pd, hpd⟩ := Option.isSome_iff_exists.mp (hsome a (by simp))
    have hcr := processArticle_created st a pd hlp (hnot a (by simp)) hpd
    rw [List.map_cons, List.nodup_cons] at hnd
    obtain ⟨hha, hndrest⟩ := hnd
    have hst' : storedHashes ⟨st.articles ++ [newArt st a pd], st.hasListPage⟩ =
        storedHashes st ++ [processContentHash a] := by
      simp [storedHashes, newArt]
    have ihres := ih ⟨st.articles ++ [newArt st a pd], st.hasListPage⟩
      { c with created_count := c.created_count + 1 }
      (by simpa using hlp)
      hndrest
      (by
        intro b hb hmem
        rw [hst'] at hmem
        rcases List.mem_append.mp hmem with hmem | hmem
        · exact hnot b (by simp [hb]) hmem
        · have : processContentHash b = processContentHash a := by simpa using hmem
          exact hha (this ▸ List.mem_map.mpr ⟨b, hb, rfl⟩))
      (fun b hb => hsome b (by simp [hb]))
    obtain ⟨ih1, ih2, ih3, ih4, ih5⟩ := ihres
    simp only [processLoop, hcr]
    rw [if_pos trivial]
    refine ⟨?_, ?_, ?_, ?_, ?_⟩
    · simp [ih1, List.replicate_succ]
    · simp [ih2]
    · simp only [ih3, List.length_cons]
      congr 1
      omega
    · simp only [ih4, hst']
      rw [List.map_cons]
      rw [List.append_assoc]
      rfl
    · exact ih5

theorem processLoop_all_skipped :
    ∀ (arts : List ArticleData) (st : MState) (c : Counts),
      (storedHashes st).Nodup →
      (∀ a ∈ arts, processContentHash a ∈ storedHashes st) →
      processLoop st arts false c =
        ⟨List.replicate arts.length .skipped, [],
         ⟨c.created_count, c.updated_count, c.skipped_count + arts.length⟩, st⟩ := by
  intro arts
  induction arts with
  | nil =>
    intro st c _ _
    simp [processLoop]
  | cons a rest ih =>
    intro st c hnd hmem
    have hex : ∃ s ∈ st.articles, s.content_hash = processContentHash a := by
      have hm := hmem a (by simp)
      unfold storedHashes at hm
      obtain ⟨s, hs, heq⟩ := List.mem_map.mp hm
      exact ⟨s, hs, heq⟩
    have hsk := processArticle_skipped st a hnd hex
    simp only [processLoop, hsk]
    rw [if_neg (by decide), if_neg (by decide)]
    rw [ih st { c with skipped_count := c.skipped_count + 1 } hnd
      (fun b hb => hmem b (by simp [hb]))]
    simp only [List.length_cons, List.replicate_succ, LoopResult.mk.injEq, Counts.mk.injEq,
      eq_self_iff_true, true_and, and_true]
    omega

/-! ## Claim C1 -/

/-- Claim C1: reconciliation is idempotent with `force_update=false`.
If a stored row with the record's content hash already exists (the
storage-level unique constraint keeps hashes duplicate-free), then
`_process_article` returns `'skipped'` and performs no storage mutation.
Consequently, running the loop over records with pairwise-distinct
hashes and present dates against empty storage creates N rows (N
created, 0 skipped, 0 updated), and running it a second time over the
same records creates nothing: all N are skipped and the storage state is
returned exactly unchanged. -/
theorem c1_reconciliation_idempotent :
    (∀ (st : MState) (a : ArticleData),
      (storedHashes st).Nodup →
      (∃ s ∈ st.articles, s.content_hash = processContentHash a) →
      processArticle st a false = .ok ("skipped", st)) ∧
    (∀ arts : List ArticleData,
      (arts.map processContentHash).Nodup →
      (∀ a ∈ arts, a.publication_date.isSome = true) →
      (processLoop ⟨[], true⟩ arts false ⟨0, 0, 0⟩).outcomes =
        List.replicate arts.length .created ∧
      (processLoop ⟨[], true⟩ arts false ⟨0, 0, 0⟩).counts = ⟨arts.length, 0, 0⟩ ∧
      (processLoop ⟨[], true⟩ arts false ⟨0, 0, 0⟩).state.articles.length = arts.length ∧
      processLoop (processLoop ⟨[], true⟩ arts false ⟨0, 0, 0⟩).state arts false ⟨0, 0, 0⟩ =
        ⟨List.replicate arts.length .skipped, [], ⟨0, 0, arts.length⟩,
         (processLoop ⟨[], true⟩ arts false ⟨0, 0, 0⟩).state⟩) := by
  constructor
  · exact fun st a hnd hex => processArticle_skipped st a hnd hex
  · intro arts hnd hsome
    obtain ⟨h1, _h2, h3, h4, _h5⟩ :=
      processLoop_all_created arts ⟨[], true⟩ ⟨0, 0, 0⟩ rfl hnd
        (by intro a _ hmem; simp [storedHashes] at hmem) hsome
    have hhash1 : storedHashes (processLoop ⟨[], true⟩ arts false ⟨0, 0, 0⟩).state =
        arts.map processContentHash := by
      rw [h4]
      simp [storedHashes]
    have hlen : (processLoop ⟨[], true⟩ arts false ⟨0, 0, 0⟩).state.articles.length =
        arts.length := by
      have := congrArg List.length hhash1
      simpa [storedHashes] using this
    refine ⟨h1, by simpa using h3, hlen, ?_⟩
    have hsk := processLoop_all_skipped arts
      (processLoop ⟨[], true⟩ arts false ⟨0, 0, 0⟩).state ⟨0, 0, 0⟩
      (by rw [hhash1]; exact hnd)
      (by intro a ha; rw [hhash1]; exact List.mem_map.mpr ⟨a, ha, rfl⟩)
    simpa using hsk

/-- Witness for C1: two concrete records with distinct hashes are both
created on the first run over empty storage, and the second run skips
both and leaves the state untouched. -/
theorem c1_witness :
    (processLoop ⟨[], true⟩
      [⟨"Alpha", "s1", "u1", "HN", some 1⟩, ⟨"Beta", "s2", "u2", "HN", some 2⟩]
      false ⟨0, 0, 0⟩).counts = ⟨2, 0, 0⟩ ∧
    processLoop
      (processLoop ⟨[], true⟩
        [⟨"Alpha", "s1", "u1", "HN", some 1⟩, ⟨"Beta", "s2", "u2", "HN", some 2⟩]
        false ⟨0, 0, 0⟩).state
      [⟨"Alpha", "s1", "u1", "HN", some 1⟩, ⟨"Beta", "s2", "u2", "HN", some 2⟩]
      false ⟨0, 0, 0⟩ =
      ⟨[.skipped, .skipped], [], ⟨0, 0, 2⟩,
       (processLoop ⟨[], true⟩
         [⟨"Alpha", "s1", "u1", "HN", some 1⟩, ⟨"Beta", "s2", "u2", "HN", some 2⟩]
         false ⟨0, 0, 0⟩).state⟩ :=
  ⟨(c1_reconciliation_idempotent.2
      [⟨"Alpha", "s1", "u1", "HN", some 1⟩, ⟨"Beta", "s2", "u2", "HN", some 2⟩]
      (by decide) (by decide)).2.1,
   (c1_reconciliation_idempotent.2
      [⟨"Alpha", "s1", "u1", "HN", some 1⟩, ⟨"Beta", "s2", "u2", "HN", some 2⟩]
      (by decide) (by decide)).2.2.2⟩
